import Mathlib

set_option linter.unusedVariables false

/-!
Verification development for the automatix batch/parallel orchestrator
(`automatix/__init__.py`).  The orchestration functions visible in the
sources (`get_script_and_batch_items`, `run_batch_items`,
`run_parallel_screens`, `main`) are embedded shallowly below; Python's
mutable objects are modelled by an explicit address-indexed store so that
deep-copying and aliasing are observable.  Collaborators that live outside
these sources (the execution engine `Automatix.run`, the config helpers
`update_script_from_row` and `collect_vars`) are modelled from the spec and
marked as such in their doc comments.
-/

namespace Automatix

/-! ### An explicit heap of mutable objects

Python dictionaries are mutable and passed by reference; `deepcopy` makes a
fresh object.  We model a heap as a map from addresses (`Nat`) to values
together with the next fresh address.  `deepcopy` reads the value at an
address and allocates a fresh cell holding it, exactly what
`copy.deepcopy(script)` does observably for the self-contained `script`
mapping. -/

structure Store (α : Type) where
  mem : Nat → α
  next : Nat

def read {α : Type} (st : Store α) (a : Nat) : α := st.mem a

def write {α : Type} (st : Store α) (a : Nat) (v : α) : Store α :=
  { st with mem := fun b => if b = a then v else st.mem b }

def alloc {α : Type} (st : Store α) (v : α) : Store α × Nat :=
  ({ mem := fun b => if b = st.next then v else st.mem b, next := st.next + 1 }, st.next)

def deepcopy {α : Type} (st : Store α) (a : Nat) : Store α × Nat :=
  alloc st (read st a)

theorem read_write_self {α : Type} (st : Store α) (a : Nat) (v : α) :
    read (write st a v) a = v := by
  simp [read, write]

theorem read_write_ne {α : Type} (st : Store α) (a b : Nat) (v : α) (h : b ≠ a) :
    read (write st a v) b = read st b := by
  simp [read, write, h]

theorem write_next {α : Type} (st : Store α) (a : Nat) (v : α) :
    (write st a v).next = st.next := rfl

theorem read_alloc_fresh {α : Type} (st : Store α) (v : α) :
    read (alloc st v).1 (alloc st v).2 = v := by
  simp [read, alloc]

theorem read_alloc_old {α : Type} (st : Store α) (v : α) (b : Nat) (h : b ≠ st.next) :
    read (alloc st v).1 b = read st b := by
  simp [read, alloc, h]

theorem alloc_next {α : Type} (st : Store α) (v : α) :
    (alloc st v).1.next = st.next + 1 := rfl

theorem alloc_addr {α : Type} (st : Store α) (v : α) : (alloc st v).2 = st.next := rfl

theorem deepcopy_read_self {α : Type} (st : Store α) (a : Nat) :
    read (deepcopy st a).1 (deepcopy st a).2 = read st a := by
  simp [deepcopy, read_alloc_fresh]

theorem deepcopy_addr {α : Type} (st : Store α) (a : Nat) : (deepcopy st a).2 = st.next := rfl

theorem deepcopy_next {α : Type} (st : Store α) (a : Nat) :
    (deepcopy st a).1.next = st.next + 1 := rfl


/-! ### The data model -/

/-- A batch row: a mapping from field name to string value, as produced by
`csv.DictReader`. -/
abbrev Row := List (String × String)

/-- The `script` dictionary, restricted to the fields the orchestrator in
`automatix/__init__.py` reads or writes: `batch_mode`, `batch_items_count`,
`exclude` and `steps` (written by `get_script_and_batch_items`) and the
variable space `vars` merged per row.  Fields absent from the dictionary are
`none`. -/
structure Script where
  batch_mode : Option Bool := none
  batch_items_count : Option Nat := none
  exclude : Option Bool := none
  steps : Option (List Int) := none
  vars : List (String × String) := []
deriving DecidableEq

/-- Modelled from the spec: `update_script_from_row` is defined in the
config module, which is not part of these sources.  Per §4.3 it "merges row
fields into the copy's variable space": row fields override entries of the
script copy's `vars`; the remaining script metadata is untouched.  The
`index` argument mirrors the call `update_script_from_row(row=row,
script=script_copy, index=i)`. -/
def update_script_from_row (row : Row) (script : Script) (index : Nat) : Script :=
  { script with vars := row ++ script.vars.filter (fun p => row.all (fun q => q.1 ≠ p.1)) }

theorem update_script_from_row_batch_mode (row : Row) (s : Script) (i : Nat) :
    (update_script_from_row row s i).batch_mode = s.batch_mode := rfl

theorem update_script_from_row_batch_items_count (row : Row) (s : Script) (i : Nat) :
    (update_script_from_row row s i).batch_items_count = s.batch_items_count := rfl

/-- One iteration of either batch loop on the heap:
`script_copy = deepcopy(script)` followed by the in-place
`update_script_from_row(row=row, script=script_copy, index=i)` (the update
policy `upd` is a parameter; the spec-modelled `update_script_from_row` is
one instance).  The copy lives at the fresh address `st.next`. -/
def iterStore (upd : Row → Script → Nat → Script) (tmpl : Nat) (st : Store Script)
    (row : Row) (i : Nat) : Store Script :=
  write (deepcopy st tmpl).1 (deepcopy st tmpl).2
    (upd row (read (deepcopy st tmpl).1 (deepcopy st tmpl).2) i)

theorem iterStore_next (upd : Row → Script → Nat → Script) (tmpl : Nat) (st : Store Script)
    (row : Row) (i : Nat) : (iterStore upd tmpl st row i).next = st.next + 1 := rfl

theorem iterStore_read_old (upd : Row → Script → Nat → Script) (tmpl : Nat)
    (st : Store Script) (row : Row) (i : Nat) (a : Nat) (h : a < st.next) :
    read (iterStore upd tmpl st row i) a = read st a := by
  have hne : a ≠ st.next := by omega
  simp [iterStore, deepcopy, alloc, read, write, hne]

theorem iterStore_read_new (upd : Row → Script → Nat → Script) (tmpl : Nat)
    (st : Store Script) (row : Row) (i : Nat) :
    read (iterStore upd tmpl st row i) st.next = upd row (read st tmpl) i := by
  simp [iterStore, deepcopy, alloc, read, write]

/-- The caller's heap at entry of the orchestrator: the script template is
the single allocated object, at address `0`. -/
def initStore (s : Script) : Store Script :=
  { mem := fun _ => s, next := 1 }

theorem read_initStore (s : Script) (a : Nat) : read (initStore s) a = s := rfl

/-! ### Step-selection parsing (`get_script_and_batch_items`)

The steps argument is a Python `str`; we embed it as its character list so
that the Python string primitives used on it (`startswith('e')`, `[1:]`,
`split(',')`, `int(...)`) become structurally recursive Lean functions. -/

/-- Python `arg.startswith('e')`. -/
def startsWithE : List Char → Bool
  | c :: _ => c = 'e'
  | [] => false

/-- Python `arg.split(',')`: splits at every comma, keeping empty parts
(`''.split(',') == ['']`). -/
def splitOnComma : List Char → List (List Char)
  | [] => [[]]
  | c :: rest =>
      if c = ',' then [] :: splitOnComma rest
      else
        match splitOnComma rest with
        | [] => [[c]]
        | part :: parts => (c :: part) :: parts

/-- Numeric value of a decimal digit string. -/
def natOfDigits (s : List Char) : Nat :=
  s.foldl (fun a c => a * 10 + (c.toNat - '0'.toNat)) 0

/-- Python `int(s)`: an optional sign followed by a non-empty run of
decimal digits; anything else raises `ValueError`, modelled as `none`. -/
def pyInt (s : List Char) : Option Int :=
  match s with
  | [] => none
  | c :: rest =>
      if c = '-' then
        if rest ≠ [] ∧ rest.all Char.isDigit then some (-(natOfDigits rest : Int)) else none
      else if c = '+' then
        if rest ≠ [] ∧ rest.all Char.isDigit then some (natOfDigits rest : Int) else none
      else if (c :: rest).all Char.isDigit then some (natOfDigits (c :: rest) : Int)
      else none

/-- Sequencing of the element-wise conversions in the Python set
comprehension `\x7bint(s) for s in ....split(',')\x7d`: `int` raises on a
non-numeric component, which poisons the whole comprehension. -/
def allSome {α : Type} : List (Option α) → Option (List α)
  | [] => some []
  | none :: _ => none
  | some a :: rest => (allSome rest).map (fun l => a :: l)

/-- `\x7bint(s) for s in arg.split(',')\x7d`, keeping the components in
order (Python builds a set; list membership below plays the set's role). -/
def parseIntList (s : List Char) : Option (List Int) :=
  allSome ((splitOnComma s).map pyInt)

/-- Comma-joined rendering of selection components, used to state the
parsing round trip: `joinComma [p1, ..., pn]` is `p1,p2,...,pn`. -/
def joinComma : List (List Char) → List Char
  | [] => []
  | [p] => p
  | p :: rest => p ++ ',' :: joinComma rest

/-- `get_script_and_batch_items` from `automatix/__init__.py`.  The script
returned by the external `get_script(args)` enters as the `script`
parameter; `vars_file` is `some rows` when `args.vars_file` is given, with
`rows` the parsed CSV rows; `steps_arg` is `args.steps`.  A non-numeric
steps component makes Python's `int` raise `ValueError`, modelled as
`Except.error`. -/
def get_script_and_batch_items (script : Script) (vars_file : Option (List Row))
    (parallel : Bool) (steps_arg : Option (List Char)) : Except String (Script × List Row) :=
  let batch_items : List Row := [[]]
  let sb : Script × List Row :=
    match vars_file with
    | none => (script, batch_items)
    | some rows =>
        ({ script with
            batch_mode := some (!parallel),
            batch_items_count := some (if parallel then 1 else rows.length) }, rows)
  match steps_arg with
  | none => Except.ok sb
  | some s =>
      let ex := startsWithE s
      let script' := { sb.1 with exclude := some ex }
      match parseIntList (if ex then s.drop 1 else s) with
      | none => Except.error "invalid literal for int() with base 10"
      | some ints => Except.ok ({ script' with steps := some ints }, sb.2)

/-! ### Control-flow signals and the execution engine

`Automatix.run` and the exception classes live in the `automatix.automatix`
and `automatix.command` modules, which are not part of these sources; the
engine is modelled from the spec.  What the orchestrator in
`automatix/__init__.py` observes of one `auto.run()` call is its outcome:
normal return, `SkipBatchItemException`, `AbortException` (carrying an exit
code, read via `int(exc)`), or `KeyboardInterrupt`. -/

/-- Outcome of one `auto.run()` invocation as observed by the batch loop. -/
inductive RunResult
  | normal
  | skip (reason : String)
  | abortR (code : Int)
  | interrupt
deriving DecidableEq

/-- `true` when the outcome lets the batch loop move on to the next item. -/
def RunResult.continuesBatch : RunResult → Bool
  | .normal => true
  | .skip _ => true
  | .abortR _ => false
  | .interrupt => false

/-- Signal produced by one step of a batch item. -/
inductive StepSignal
  | continueS
  | skipS (reason : String)
  | abortS (code : Int)
  | interruptS
deriving DecidableEq

/-- Modelled from the spec: the Execution Engine (`Automatix.run`, defined
outside these sources) "runs the effective step sequence of a RunContext"
strictly sequentially; "step i+1 begins only after step i completes or
raises a signal".  Returns how many steps were executed together with the
item's outcome. -/
def runSteps : List StepSignal → Nat × RunResult
  | [] => (0, RunResult.normal)
  | s :: rest =>
      match s with
      | .continueS =>
          let r := runSteps rest
          (r.1 + 1, r.2)
      | .skipS reason => (1, RunResult.skip reason)
      | .abortS code => (1, RunResult.abortR code)
      | .interruptS => (1, RunResult.interrupt)

/-- A log line, tagged with its level. -/
inductive LogEntry
  | info (msg : String)
  | notice (msg : String)
  | warning (msg : String)
deriving DecidableEq

def LogEntry.isWarning : LogEntry → Bool
  | .warning _ => true
  | _ => false

/-- A run context as handed to `Automatix(...)`: the heap address of the
item's private script copy (whose `vars` the engine reads through
`collect_vars`) and the `batch_index` argument. -/
structure Ctx where
  addr : Nat
  batch_index : Nat
deriving DecidableEq

/-- Observable result of `run_batch_items`: the final heap, the run
contexts built (in order), the 1-based indices of the items on which the
engine was invoked, the log lines of the batch loop, and the process exit
status (`none` when the loop ran to completion). -/
structure SeqResult where
  store : Store Script
  ctxs : List Ctx
  attempted : List Nat
  logs : List LogEntry
  exitcode : Option Int

/-- The `for i, row in enumerate(batch_items, start=1)` loop of
`run_batch_items`: deep-copy the script template at address `tmpl`, apply
`update_script_from_row` to the copy in place, build the run context with
`batch_index = i`, invoke the engine (outcome `results i`), and interpret
the control-flow signals exactly as the `try/except` block does. -/
def runBatchLoop (upd : Row → Script → Nat → Script) (results : Nat → RunResult)
    (tmpl : Nat) : Store Script → Nat → List Row → SeqResult
  | st, _, [] => { store := st, ctxs := [], attempted := [], logs := [], exitcode := none }
  | st, i, row :: rest =>
      let st2 := iterStore upd tmpl st row i
      let c : Ctx := { addr := st.next, batch_index := i }
      match results i with
      | .normal =>
          let r := runBatchLoop upd results tmpl st2 (i + 1) rest
          { r with ctxs := c :: r.ctxs, attempted := i :: r.attempted }
      | .skip reason =>
          let r := runBatchLoop upd results tmpl st2 (i + 1) rest
          { r with
              ctxs := c :: r.ctxs,
              attempted := i :: r.attempted,
              logs := LogEntry.info reason ::
                LogEntry.notice "=====> Jumping to next batch item." :: r.logs }
      | .abortR code =>
          { store := st2, ctxs := [c], attempted := [i], logs := [], exitcode := some code }
      | .interrupt =>
          { store := st2, ctxs := [c], attempted := [i],
            logs := [LogEntry.warning "\nAborted by user. Exiting."], exitcode := some 130 }

/-- `run_batch_items(script, batch_items, args)`: the caller's heap holds
the script template as its only object; the loop starts at batch index 1. -/
def run_batch_items (upd : Row → Script → Nat → Script) (results : Nat → RunResult)
    (script : Script) (batch_items : List Row) : SeqResult :=
  runBatchLoop upd results 0 (initStore script) 1 batch_items

theorem run_batch_items_def (upd : Row → Script → Nat → Script) (results : Nat → RunResult)
    (script : Script) (batch_items : List Row) :
    run_batch_items upd results script batch_items
      = runBatchLoop upd results 0 (initStore script) 1 batch_items := rfl

/-! ### The parallel dispatcher (`run_parallel_screens`) -/

/-- Externally observable action of `run_parallel_screens` on the
filesystem and process table: serializing a context file (`pickle.dump` to
`tempdir/auto\x7bi\x7d`), creating the rendezvous fifo (`os.mkfifo`),
launching the overview process (`subprocess.run`), logging one line per
line read from the fifo, and removing the temporary directory on exit of
the `with TemporaryDirectory()` block. -/
inductive PEvent
  | writeFile (name : String)
  | mkfifoEv (name : String)
  | spawn (cmd : String)
  | finishedLog
  | cleanup
deriving DecidableEq

def PEvent.isWrite : PEvent → Bool
  | .writeFile _ => true
  | _ => false

def PEvent.isMkfifo : PEvent → Bool
  | .mkfifoEv _ => true
  | _ => false

def PEvent.isSpawn : PEvent → Bool
  | .spawn _ => true
  | _ => false

def PEvent.isFinishedLog : PEvent → Bool
  | .finishedLog => true
  | _ => false

/-- Result of one iteration block of `run_parallel_screens`'s building
loop: the heap, the contexts pickled, and the file writes performed. -/
structure BuildOut where
  store : Store Script
  ctxs : List Ctx
  events : List PEvent

/-- The `for i, row in enumerate(batch_items, start=1)` loop of
`run_parallel_screens`: same per-row context construction as the
sequential loop, except that each `Automatix` object is created with
`batch_index=1` and is pickled to `tempdir/auto\x7bi\x7d` instead of being
run. -/
def parallelBuildLoop (upd : Row → Script → Nat → Script) (tmpl : Nat) :
    Store Script → Nat → List Row → BuildOut
  | st, _, [] => { store := st, ctxs := [], events := [] }
  | st, i, row :: rest =>
      let st2 := iterStore upd tmpl st row i
      let c : Ctx := { addr := st.next, batch_index := 1 }
      let r := parallelBuildLoop upd tmpl st2 (i + 1) rest
      { r with
          ctxs := c :: r.ctxs,
          events := PEvent.writeFile ("auto" ++ toString i) :: r.events }

/-- The `screen -S ..._overview automatix nonexistent --prepared-from-pipe ...`
command line built by `run_parallel_screens`. -/
def overviewCmd (tempdir : String) (time_id : Nat) : String :=
  "screen -S " ++ toString time_id ++ "_overview automatix nonexistent --prepared-from-pipe \""
    ++ tempdir ++ "/" ++ toString time_id ++ "_overview\""

/-- Observable result of `run_parallel_screens`: final heap, pickled
contexts, event trace and outcome (`Except.error` when `subprocess.run`
raised, which nothing in the function catches). -/
structure ParResult where
  store : Store Script
  ctxs : List Ctx
  events : List PEvent
  result : Except String Unit

/-- `run_parallel_screens(script, batch_items, args)`.  `tempdir` is the
temporary directory path, `time_id` the value of `round(time())`,
`spawnOutcome` the behaviour of `subprocess.run` (`Except.ok code` for a
completed shell with exit status `code` — the code is not checked by the
source — and `Except.error e` for a raised `OSError`/`SubprocessError`),
and `fifoIn` the lines the overview process writes to the rendezvous fifo
before closing it.  The fifo is created before the overview process is
spawned; after the spawn returns, the launcher iterates over the fifo's
lines, logging once per line, and the temporary directory is removed when
the `with` block exits — also during exception unwinding. -/
def run_parallel_screens (upd : Row → Script → Nat → Script) (script : Script)
    (batch_items : List Row) (tempdir : String) (time_id : Nat)
    (spawnOutcome : Except String Int) (fifoIn : List String) : ParResult :=
  let b := parallelBuildLoop upd 0 (initStore script) 1 batch_items
  let evs := b.events ++
    [PEvent.mkfifoEv (toString time_id ++ "_finished"),
     PEvent.spawn (overviewCmd tempdir time_id)]
  match spawnOutcome with
  | .error e =>
      { store := b.store, ctxs := b.ctxs, events := evs ++ [PEvent.cleanup],
        result := Except.error e }
  | .ok _ =>
      { store := b.store, ctxs := b.ctxs,
        events := evs ++ fifoIn.map (fun _ => PEvent.finishedLog) ++ [PEvent.cleanup],
        result := Except.ok () }

/-! ### The entry point (`main`) -/

/-- Externally observable actions of `main`, in program order. -/
inductive MainEvent
  | promptShell
  | exitProc (code : Int)
  | parseArgs
  | setupLog
  | runFromPipe (pipe : String)
  | loadScript
  | runParallel
  | runBatch
deriving DecidableEq

/-- The body of `main` after the nested-shell guard: parse arguments, set
up logging, then either serve a prepared pipe or load the script and run
the batch (parallel when both `--vars-file` and `--parallel` are given). -/
def mainBody (pipe : Option String) (vars_file : Bool) (parallel : Bool) : List MainEvent :=
  MainEvent.parseArgs :: MainEvent.setupLog ::
    (match pipe with
     | some p => [MainEvent.runFromPipe p, MainEvent.exitProc 0]
     | none =>
         MainEvent.loadScript ::
           (if vars_file && parallel then [MainEvent.runParallel] else [MainEvent.runBatch]))

/-- `main()` from `automatix/__init__.py`: when the `AUTOMATIX_SHELL`
environment variable is set, the confirmation prompt comes first, and any
typed answer other than `"yes"` exits with status 0 before anything else
happens. -/
def main (shellEnv : Bool) (answer : String) (pipe : Option String)
    (vars_file : Bool) (parallel : Bool) : List MainEvent :=
  if shellEnv then
    MainEvent.promptShell ::
      (if answer ≠ "yes" then [MainEvent.exitProc 0] else mainBody pipe vars_file parallel)
  else mainBody pipe vars_file parallel

/-! ### Invariants of the sequential batch loop -/

/-- Heap discipline of the batch loop, for every possible sequence of
engine outcomes: the loop only allocates (one fresh cell per context it
builds, at consecutive addresses), so every pre-existing cell — in
particular the script template — is left untouched. -/
theorem runBatchLoop_heap (upd : Row → Script → Nat → Script) (results : Nat → RunResult)
    (tmpl : Nat) :
    ∀ (rows : List Row) (st : Store Script) (i : Nat),
      (runBatchLoop upd results tmpl st i rows).store.next
          = st.next + (runBatchLoop upd results tmpl st i rows).ctxs.length ∧
      (∀ a, a < st.next →
        read (runBatchLoop upd results tmpl st i rows).store a = read st a) ∧
      (runBatchLoop upd results tmpl st i rows).ctxs.map Ctx.addr
          = List.range' st.next (runBatchLoop upd results tmpl st i rows).ctxs.length := by
  intro rows
  induction rows with
  | nil => intro st i; simp [runBatchLoop]
  | cons row rest ih =>
    intro st i
    cases h : results i with
    | normal =>
      obtain ⟨ih1, ih2, ih3⟩ := ih (iterStore upd tmpl st row i) (i + 1)
      rw [iterStore_next] at ih1 ih2 ih3
      simp only [runBatchLoop, h, List.map_cons, List.length_cons]
      refine ⟨by omega, ?_, ?_⟩
      · intro a ha
        rw [ih2 a (by omega), iterStore_read_old _ _ _ _ _ _ ha]
      · rw [ih3, List.range'_succ]
    | skip reason =>
      obtain ⟨ih1, ih2, ih3⟩ := ih (iterStore upd tmpl st row i) (i + 1)
      rw [iterStore_next] at ih1 ih2 ih3
      simp only [runBatchLoop, h, List.map_cons, List.length_cons]
      refine ⟨by omega, ?_, ?_⟩
      · intro a ha
        rw [ih2 a (by omega), iterStore_read_old _ _ _ _ _ _ ha]
      · rw [ih3, List.range'_succ]
    | abortR code =>
      simp only [runBatchLoop, h, List.map_cons, List.length_cons]
      exact ⟨rfl, fun a ha => iterStore_read_old _ _ _ _ _ _ ha, by simp⟩
    | interrupt =>
      simp only [runBatchLoop, h, List.map_cons, List.length_cons]
      exact ⟨rfl, fun a ha => iterStore_read_old _ _ _ _ _ _ ha, by simp⟩

/-- When every engine outcome in range lets the loop continue (normal
completion or a skip), the batch loop visits every row: it builds one
context per row, with batch indices `i, i+1, ...` in source order, invokes
the engine exactly once per context, never sets an exit status, and each
context's cell holds the updated copy of the template value `v`. -/
theorem runBatchLoop_complete (upd : Row → Script → Nat → Script) (results : Nat → RunResult)
    (tmpl : Nat) (v : Script) :
    ∀ (rows : List Row) (st : Store Script) (i : Nat),
      tmpl < st.next → read st tmpl = v →
      (∀ m, i ≤ m → m < i + rows.length → (results m).continuesBatch = true) →
      (runBatchLoop upd results tmpl st i rows).ctxs.map Ctx.batch_index
          = List.range' i rows.length ∧
      (runBatchLoop upd results tmpl st i rows).attempted = List.range' i rows.length ∧
      (runBatchLoop upd results tmpl st i rows).exitcode = none ∧
      (runBatchLoop upd results tmpl st i rows).ctxs.map
          (fun c => read (runBatchLoop upd results tmpl st i rows).store c.addr)
        = (List.zip (List.range' i rows.length) rows).map (fun q => upd q.2 v q.1) := by
  intro rows
  induction rows with
  | nil => intro st i _ _ _; simp [runBatchLoop]
  | cons row rest ih =>
    intro st i htmpl hv hall
    have hcont : (results i).continuesBatch = true := hall i (Nat.le_refl i) (by simp)
    have htmpl2 : tmpl < (iterStore upd tmpl st row i).next := by
      rw [iterStore_next]; omega
    have hv2 : read (iterStore upd tmpl st row i) tmpl = v := by
      rw [iterStore_read_old _ _ _ _ _ _ htmpl]; exact hv
    have hall2 : ∀ m, i + 1 ≤ m → m < (i + 1) + rest.length →
        (results m).continuesBatch = true := by
      intro m h1 h2
      exact hall m (by omega) (by simp [List.length_cons]; omega)
    have hread : ∀ a, a < (iterStore upd tmpl st row i).next →
        read (runBatchLoop upd results tmpl (iterStore upd tmpl st row i) (i + 1) rest).store a
          = read (iterStore upd tmpl st row i) a :=
      (runBatchLoop_heap upd results tmpl rest (iterStore upd tmpl st row i) (i + 1)).2.1
    obtain ⟨ih1, ih2, ih3, ih4⟩ := ih (iterStore upd tmpl st row i) (i + 1) htmpl2 hv2 hall2
    cases h : results i with
    | normal =>
      simp only [runBatchLoop, h, List.map_cons, List.length_cons]
      refine ⟨by rw [ih1, List.range'_succ], by rw [ih2, List.range'_succ], ih3, ?_⟩
      rw [List.range'_succ, List.zip_cons_cons, List.map_cons,
        hread st.next (by rw [iterStore_next]; omega), iterStore_read_new, hv, ih4]
    | skip reason =>
      simp only [runBatchLoop, h, List.map_cons, List.length_cons]
      refine ⟨by rw [ih1, List.range'_succ], by rw [ih2, List.range'_succ], ih3, ?_⟩
      rw [List.range'_succ, List.zip_cons_cons, List.map_cons,
        hread st.next (by rw [iterStore_next]; omega), iterStore_read_new, hv, ih4]
    | abortR code => rw [h] at hcont; simp [RunResult.continuesBatch] at hcont
    | interrupt => rw [h] at hcont; simp [RunResult.continuesBatch] at hcont

/-- When a skip occurs on item `k` and the loop reaches item `k`, the skip
reason is logged at informational level. -/
theorem runBatchLoop_skip_logged (upd : Row → Script → Nat → Script)
    (results : Nat → RunResult) (tmpl : Nat) :
    ∀ (rows : List Row) (st : Store Script) (i k : Nat) (reason : String),
      i ≤ k → k < i + rows.length →
      results k = RunResult.skip reason →
      (∀ m, i ≤ m → m < k → (results m).continuesBatch = true) →
      LogEntry.info reason ∈ (runBatchLoop upd results tmpl st i rows).logs := by
  intro rows
  induction rows with
  | nil => intro st i k reason h1 h2; simp at h2; omega
  | cons row rest ih =>
    intro st i k reason h1 h2 hk hbefore
    rcases Nat.eq_or_lt_of_le h1 with heq | hlt
    · subst heq
      simp only [runBatchLoop, hk]
      exact List.mem_cons_self _ _
    · have hcont : (results i).continuesBatch = true := hbefore i (Nat.le_refl i) hlt
      have hrec : LogEntry.info reason ∈
          (runBatchLoop upd results tmpl (iterStore upd tmpl st row i) (i + 1) rest).logs := by
        refine ih (iterStore upd tmpl st row i) (i + 1) k reason hlt
          (by simp [List.length_cons] at h2; omega) hk ?_
        intro m hm1 hm2; exact hbefore m (by omega) hm2
      cases h : results i with
      | normal => simpa only [runBatchLoop, h] using hrec
      | skip r' =>
        simp only [runBatchLoop, h, List.mem_cons]
        exact Or.inr (Or.inr hrec)
      | abortR code => rw [h] at hcont; simp [RunResult.continuesBatch] at hcont
      | interrupt => rw [h] at hcont; simp [RunResult.continuesBatch] at hcont

/-- When item `k` is the first item whose outcome stops the loop, the
items attempted are exactly `i..k`, the exit status is the abort code (or
130 on a user interrupt), and the warning for a user interrupt is emitted
exactly once (an abort emits none). -/
theorem runBatchLoop_stop (upd : Row → Script → Nat → Script) (results : Nat → RunResult)
    (tmpl : Nat) :
    ∀ (rows : List Row) (st : Store Script) (i k : Nat),
      i ≤ k → k < i + rows.length →
      (∀ m, i ≤ m → m < k → (results m).continuesBatch = true) →
      (results k).continuesBatch = false →
      (runBatchLoop upd results tmpl st i rows).attempted = List.range' i (k + 1 - i) ∧
      (runBatchLoop upd results tmpl st i rows).exitcode
        = (match results k with
           | RunResult.abortR code => some code
           | _ => some 130) ∧
      (runBatchLoop upd results tmpl st i rows).logs.countP LogEntry.isWarning
        = (match results k with
           | RunResult.interrupt => 1
           | _ => 0) := by
  intro rows
  induction rows with
  | nil => intro st i k h1 h2; simp at h2; omega
  | cons row rest ih =>
    intro st i k h1 h2 hbefore hstop
    rcases Nat.eq_or_lt_of_le h1 with heq | hlt
    · subst heq
      cases h : results i with
      | normal => rw [h] at hstop; simp [RunResult.continuesBatch] at hstop
      | skip r' => rw [h] at hstop; simp [RunResult.continuesBatch] at hstop
      | abortR code =>
        simp [runBatchLoop, h, Nat.add_sub_cancel_left, List.range'_one]
      | interrupt =>
        simp [runBatchLoop, h, Nat.add_sub_cancel_left, List.range'_one,
          List.countP_cons, LogEntry.isWarning]
    · have hcont : (results i).continuesBatch = true := hbefore i (Nat.le_refl i) hlt
      have hrec := ih (iterStore upd tmpl st row i) (i + 1) k hlt
        (by simp [List.length_cons] at h2; omega)
        (fun m hm1 hm2 => hbefore m (by omega) hm2) hstop
      obtain ⟨hr1, hr2, hr3⟩ := hrec
      have hrange : k + 1 - i = (k + 1 - (i + 1)) + 1 := by omega
      cases h : results i with
      | normal =>
        simp only [runBatchLoop, h]
        refine ⟨?_, hr2, hr3⟩
        rw [hr1, hrange, List.range'_succ]
      | skip r' =>
        simp only [runBatchLoop, h]
        refine ⟨?_, hr2, ?_⟩
        · rw [hr1, hrange, List.range'_succ]
        · simp [List.countP_cons, LogEntry.isWarning, hr3]
      | abortR code => rw [h] at hcont; simp [RunResult.continuesBatch] at hcont
      | interrupt => rw [h] at hcont; simp [RunResult.continuesBatch] at hcont

/-! ### Invariants of the parallel building loop -/

/-- The parallel building loop visits every row unconditionally: one fresh
cell and one serialized context file `auto\x7bi\x7d` per row, every
context with `batch_index = 1`, pre-existing cells untouched, and each
context's cell holding the updated copy of the template value `v`. -/
theorem parallelBuildLoop_spec (upd : Row → Script → Nat → Script) (tmpl : Nat) (v : Script) :
    ∀ (rows : List Row) (st : Store Script) (i : Nat),
      tmpl < st.next → read st tmpl = v →
      (parallelBuildLoop upd tmpl st i rows).store.next = st.next + rows.length ∧
      (∀ a, a < st.next →
        read (parallelBuildLoop upd tmpl st i rows).store a = read st a) ∧
      (parallelBuildLoop upd tmpl st i rows).ctxs.map Ctx.addr
          = List.range' st.next rows.length ∧
      (parallelBuildLoop upd tmpl st i rows).ctxs.map Ctx.batch_index
          = List.replicate rows.length 1 ∧
      (parallelBuildLoop upd tmpl st i rows).events
          = (List.range' i rows.length).map
              (fun j => PEvent.writeFile ("auto" ++ toString j)) ∧
      (parallelBuildLoop upd tmpl st i rows).ctxs.map
          (fun c => read (parallelBuildLoop upd tmpl st i rows).store c.addr)
        = (List.zip (List.range' i rows.length) rows).map (fun q => upd q.2 v q.1) := by
  intro rows
  induction rows with
  | nil => intro st i _ _; simp [parallelBuildLoop]
  | cons row rest ih =>
    intro st i htmpl hv
    have htmpl2 : tmpl < (iterStore upd tmpl st row i).next := by
      rw [iterStore_next]; omega
    have hv2 : read (iterStore upd tmpl st row i) tmpl = v := by
      rw [iterStore_read_old _ _ _ _ _ _ htmpl]; exact hv
    obtain ⟨ih1, ih2, ih3, ih4, ih5, ih6⟩ :=
      ih (iterStore upd tmpl st row i) (i + 1) htmpl2 hv2
    rw [iterStore_next] at ih1 ih2 ih3
    simp only [parallelBuildLoop, List.map_cons, List.length_cons]
    refine ⟨by omega, ?_, ?_, ?_, ?_, ?_⟩
    · intro a ha
      rw [ih2 a (by omega), iterStore_read_old _ _ _ _ _ _ ha]
    · rw [ih3, List.range'_succ]
    · rw [ih4, List.replicate_succ]
    · rw [ih5, List.range'_succ, List.map_cons]
    · rw [List.range'_succ, List.zip_cons_cons, List.map_cons,
        ih2 st.next (by omega), iterStore_read_new, hv, ih6]

/-- The heap and the pickled contexts of `run_parallel_screens` do not
depend on the spawn outcome or the fifo contents: they are produced by the
building loop before the overview process is launched. -/
theorem run_parallel_screens_build (upd : Row → Script → Nat → Script) (script : Script)
    (batch_items : List Row) (tempdir : String) (time_id : Nat)
    (spawnOutcome : Except String Int) (fifoIn : List String) :
    (run_parallel_screens upd script batch_items tempdir time_id spawnOutcome fifoIn).store
        = (parallelBuildLoop upd 0 (initStore script) 1 batch_items).store ∧
    (run_parallel_screens upd script batch_items tempdir time_id spawnOutcome fifoIn).ctxs
        = (parallelBuildLoop upd 0 (initStore script) 1 batch_items).ctxs := by
  cases spawnOutcome <;> simp [run_parallel_screens]

/-! ### The claims -/

/-- Claim C1: for every script template and every sequence of batch rows,
each batch item's run context is built from a deep copy of the script
template: the original script mapping (at address 0) is observably
unchanged after all iterations, and mutating the script copy (hence its
variables) of one item's context is never observable in another item's
context, in both sequential and parallel modes. -/
theorem c1_context_isolation (upd : Row → Script → Nat → Script)
    (results : Nat → RunResult) (s0 : Script) (rows : List Row) (tempdir : String)
    (time_id : Nat) (spawnOutcome : Except String Int) (fifoIn : List String) :
    (read (run_batch_items upd results s0 rows).store 0 = s0 ∧
      (∀ c, c ∈ (run_batch_items upd results s0 rows).ctxs → c.addr ≠ 0) ∧
      (∀ c, c ∈ (run_batch_items upd results s0 rows).ctxs →
        ∀ c', c' ∈ (run_batch_items upd results s0 rows).ctxs → c ≠ c' → ∀ v : Script,
          read (write (run_batch_items upd results s0 rows).store c.addr v) c'.addr
            = read (run_batch_items upd results s0 rows).store c'.addr)) ∧
    (read (run_parallel_screens upd s0 rows tempdir time_id spawnOutcome fifoIn).store 0 = s0 ∧
      (∀ c, c ∈ (run_parallel_screens upd s0 rows tempdir time_id spawnOutcome fifoIn).ctxs →
        c.addr ≠ 0) ∧
      (∀ c, c ∈ (run_parallel_screens upd s0 rows tempdir time_id spawnOutcome fifoIn).ctxs →
        ∀ c', c' ∈ (run_parallel_screens upd s0 rows tempdir time_id spawnOutcome fifoIn).ctxs →
          c ≠ c' → ∀ v : Script,
          read (write (run_parallel_screens upd s0 rows tempdir time_id spawnOutcome fifoIn).store
              c.addr v) c'.addr
            = read (run_parallel_screens upd s0 rows tempdir time_id spawnOutcome fifoIn).store
              c'.addr)) := by
  constructor
  · obtain ⟨h1, h2, h3⟩ := runBatchLoop_heap upd results 0 rows (initStore s0) 1
    have hnodup : ((run_batch_items upd results s0 rows).ctxs.map Ctx.addr).Nodup := by
      rw [run_batch_items_def, h3]
      exact List.nodup_range' _ _
    have haddr : ∀ c, c ∈ (run_batch_items upd results s0 rows).ctxs → 1 ≤ c.addr := by
      intro c hc
      have : c.addr ∈ (run_batch_items upd results s0 rows).ctxs.map Ctx.addr :=
        List.mem_map_of_mem Ctx.addr hc
      rw [run_batch_items_def, h3] at this
      exact (List.mem_range'_1.mp this).1
    refine ⟨h2 0 (by simp [initStore]), fun c hc => by have := haddr c hc; omega, ?_⟩
    intro c hc c' hc' hne v
    refine read_write_ne _ _ _ _ ?_
    intro heq
    exact hne (List.inj_on_of_nodup_map hnodup hc hc' heq.symm)
  · obtain ⟨hs, hcx⟩ :=
      run_parallel_screens_build upd s0 rows tempdir time_id spawnOutcome fifoIn
    obtain ⟨h1, h2, h3, h4, h5, h6⟩ := parallelBuildLoop_spec upd 0 s0 rows (initStore s0) 1
      (by simp [initStore]) (read_initStore s0 0)
    have hnodup :
        ((run_parallel_screens upd s0 rows tempdir time_id spawnOutcome fifoIn).ctxs.map
          Ctx.addr).Nodup := by
      rw [hcx, h3]
      exact List.nodup_range' _ _
    have haddr : ∀ c,
        c ∈ (run_parallel_screens upd s0 rows tempdir time_id spawnOutcome fifoIn).ctxs →
        1 ≤ c.addr := by
      intro c hc
      rw [hcx] at hc
      have : c.addr ∈ (parallelBuildLoop upd 0 (initStore s0) 1 rows).ctxs.map Ctx.addr :=
        List.mem_map_of_mem Ctx.addr hc
      rw [h3] at this
      exact (List.mem_range'_1.mp this).1
    refine ⟨by rw [hs]; exact h2 0 (by simp [initStore]),
      fun c hc => by have := haddr c hc; omega, ?_⟩
    intro c hc c' hc' hne v
    rw [hs]
    refine read_write_ne _ _ _ _ ?_
    intro heq
    rw [hcx] at hc hc'
    exact hne (List.inj_on_of_nodup_map (by rw [h3]; exact List.nodup_range' _ _) hc hc' heq.symm)

/-- Claim C4: for every batch source of size `M ≥ 1` whose items all let
the loop continue (no abort or interrupt), the sequential orchestrator
builds exactly `M` run contexts, one per row in source order (context `k`
holds the updated copy of the template for row `k`), with distinct 1-based
batch indices `1..M`, and invokes the execution engine once per context. -/
theorem c4_sequential_builds_all (upd : Row → Script → Nat → Script)
    (results : Nat → RunResult) (s0 : Script) (rows : List Row)
    (hM : 1 ≤ rows.length)
    (hall : ∀ i, 1 ≤ i → i ≤ rows.length → (results i).continuesBatch = true) :
    (run_batch_items upd results s0 rows).ctxs.length = rows.length ∧
    (run_batch_items upd results s0 rows).ctxs.map Ctx.batch_index
        = List.range' 1 rows.length ∧
    (run_batch_items upd results s0 rows).attempted = List.range' 1 rows.length ∧
    (run_batch_items upd results s0 rows).ctxs.map
        (fun c => read (run_batch_items upd results s0 rows).store c.addr)
      = (List.zip (List.range' 1 rows.length) rows).map (fun q => upd q.2 s0 q.1) := by
  obtain ⟨h1, h2, h3, h4⟩ := runBatchLoop_complete upd results 0 s0 rows (initStore s0) 1
    (by simp [initStore]) (read_initStore s0 0)
    (fun m hm1 hm2 => hall m hm1 (by omega))
  refine ⟨?_, h1, h2, h4⟩
  have := congrArg List.length h1
  simpa using this

/-- Running the engine on a prefix of continue signals followed by a skip:
the steps after the skip are not executed and the item's outcome is the
skip. -/
theorem runSteps_skip (reason : String) (post : List StepSignal) :
    ∀ pre : List StepSignal, (∀ s, s ∈ pre → s = StepSignal.continueS) →
      runSteps (pre ++ StepSignal.skipS reason :: post) = (pre.length + 1, RunResult.skip reason) := by
  intro pre
  induction pre with
  | nil => intro _; simp [runSteps]
  | cons s pre' ih =>
    intro hpre
    have hs : s = StepSignal.continueS := hpre s (List.mem_cons_self _ _)
    subst hs
    have ihh := ih (fun s hs => hpre s (List.mem_cons_of_mem _ hs))
    rw [List.cons_append]
    show ((runSteps (pre' ++ StepSignal.skipS reason :: post)).1 + 1,
        (runSteps (pre' ++ StepSignal.skipS reason :: post)).2)
      = (pre'.length + 1 + 1, RunResult.skip reason)
    rw [ihh]

/-- Claim C2: if item `k` raises the skip-item signal after a prefix of
successful steps, the remainder of item `k`'s steps are abandoned, the
reason is logged at informational level, and — since a skip never
terminates the run — all `M` items are attempted (in order) and no exit
status is set. -/
theorem c2_skip_item (upd : Row → Script → Nat → Script) (items : Nat → List StepSignal)
    (s0 : Script) (rows : List Row) (k : Nat) (reason : String)
    (pre post : List StepSignal)
    (hk1 : 1 ≤ k) (hk2 : k ≤ rows.length)
    (hsteps : items k = pre ++ StepSignal.skipS reason :: post)
    (hpre : ∀ s, s ∈ pre → s = StepSignal.continueS)
    (hall : ∀ i, 1 ≤ i → i ≤ rows.length →
      ((runSteps (items i)).2).continuesBatch = true) :
    (runSteps (items k)).1 = pre.length + 1 ∧
    LogEntry.info reason ∈
      (run_batch_items upd (fun i => (runSteps (items i)).2) s0 rows).logs ∧
    (run_batch_items upd (fun i => (runSteps (items i)).2) s0 rows).exitcode = none ∧
    (run_batch_items upd (fun i => (runSteps (items i)).2) s0 rows).attempted
      = List.range' 1 rows.length := by
  have hrun : runSteps (items k) = (pre.length + 1, RunResult.skip reason) := by
    rw [hsteps]; exact runSteps_skip reason post pre hpre
  obtain ⟨_, h2, h3, _⟩ := runBatchLoop_complete upd (fun i => (runSteps (items i)).2) 0 s0
    rows (initStore s0) 1 (by simp [initStore]) (read_initStore s0 0)
    (fun m hm1 hm2 => hall m hm1 (by omega))
  refine ⟨by rw [hrun], ?_, h3, h2⟩
  refine runBatchLoop_skip_logged upd (fun i => (runSteps (items i)).2) 0 rows
    (initStore s0) 1 k reason hk1 (by omega)
    (by show (runSteps (items k)).2 = RunResult.skip reason; rw [hrun]) ?_
  intro m hm1 hm2
  exact hall m hm1 (by omega)

/-- Claim C3: if item `k` raises the abort signal with exit code `c` (and
no earlier item terminates the loop), the process exits with status `c`
and items `k+1..M` are never attempted. -/
theorem c3_abort_terminates (upd : Row → Script → Nat → Script)
    (results : Nat → RunResult) (s0 : Script) (rows : List Row) (k : Nat) (c : Int)
    (hk1 : 1 ≤ k) (hk2 : k ≤ rows.length)
    (habort : results k = RunResult.abortR c)
    (hbefore : ∀ m, 1 ≤ m → m < k → (results m).continuesBatch = true) :
    (run_batch_items upd results s0 rows).exitcode = some c ∧
    (run_batch_items upd results s0 rows).attempted = List.range' 1 k ∧
    ∀ m, k < m → m ∉ (run_batch_items upd results s0 rows).attempted := by
  obtain ⟨h1, h2, _⟩ := runBatchLoop_stop upd results 0 rows (initStore s0) 1 k hk1
    (by omega) hbefore (by rw [habort]; rfl)
  rw [habort] at h2
  have hk : k + 1 - 1 = k := by omega
  rw [hk] at h1
  refine ⟨h2, h1, ?_⟩
  intro m hm hmem
  rw [run_batch_items_def, h1] at hmem
  have := List.mem_range'_1.mp hmem
  omega

/-- Claim C7: a user interrupt during sequential execution of item `k`
(no earlier item having terminated the loop) makes the process exit with
status 130, with the warning emitted exactly once and no further items
attempted. -/
theorem c7_user_interrupt (upd : Row → Script → Nat → Script)
    (results : Nat → RunResult) (s0 : Script) (rows : List Row) (k : Nat)
    (hk1 : 1 ≤ k) (hk2 : k ≤ rows.length)
    (hint : results k = RunResult.interrupt)
    (hbefore : ∀ m, 1 ≤ m → m < k → (results m).continuesBatch = true) :
    (run_batch_items upd results s0 rows).exitcode = some 130 ∧
    (run_batch_items upd results s0 rows).logs.countP LogEntry.isWarning = 1 ∧
    (run_batch_items upd results s0 rows).attempted = List.range' 1 k ∧
    ∀ m, k < m → m ∉ (run_batch_items upd results s0 rows).attempted := by
  obtain ⟨h1, h2, h3⟩ := runBatchLoop_stop upd results 0 rows (initStore s0) 1 k hk1
    (by omega) hbefore (by rw [hint]; rfl)
  rw [hint] at h2 h3
  have hk : k + 1 - 1 = k := by omega
  rw [hk] at h1
  refine ⟨h2, h3, h1, ?_⟩
  intro m hm hmem
  rw [run_batch_items_def, h1] at hmem
  have := List.mem_range'_1.mp hmem
  omega

/-- Claim C5: a tabular source sets the script's batch-mode flag and
batch-items-count — the count equals the number of rows in sequential mode
and is forced to 1 in parallel mode — and every run context built by the
parallel dispatcher is a single-item, non-batch execution: batch index 1
and batch-mode off (its script copy keeps `batch_mode = False` and
`batch_items_count = 1`, which the spec-modelled `update_script_from_row`
does not touch). -/
theorem c5_batch_flags (s0 : Script) (rows : List Row) (tempdir : String) (time_id : Nat)
    (spawnOutcome : Except String Int) (fifoIn : List String) :
    get_script_and_batch_items s0 (some rows) false none
      = Except.ok
          ({ s0 with batch_mode := some true, batch_items_count := some rows.length }, rows) ∧
    get_script_and_batch_items s0 (some rows) true none
      = Except.ok
          ({ s0 with batch_mode := some false, batch_items_count := some 1 }, rows) ∧
    ∀ c, c ∈ (run_parallel_screens update_script_from_row
        { s0 with batch_mode := some false, batch_items_count := some 1 }
        rows tempdir time_id spawnOutcome fifoIn).ctxs →
      c.batch_index = 1 ∧
      (read (run_parallel_screens update_script_from_row
          { s0 with batch_mode := some false, batch_items_count := some 1 }
          rows tempdir time_id spawnOutcome fifoIn).store c.addr).batch_mode = some false ∧
      (read (run_parallel_screens update_script_from_row
          { s0 with batch_mode := some false, batch_items_count := some 1 }
          rows tempdir time_id spawnOutcome fifoIn).store c.addr).batch_items_count
        = some 1 := by
  refine ⟨rfl, rfl, ?_⟩
  intro c hc
  obtain ⟨hs, hcx⟩ := run_parallel_screens_build update_script_from_row
    { s0 with batch_mode := some false, batch_items_count := some 1 }
    rows tempdir time_id spawnOutcome fifoIn
  obtain ⟨h1, h2, h3, h4, h5, h6⟩ := parallelBuildLoop_spec update_script_from_row 0
    { s0 with batch_mode := some false, batch_items_count := some 1 }
    rows (initStore { s0 with batch_mode := some false, batch_items_count := some 1 }) 1
    (by simp [initStore]) (read_initStore _ 0)
  rw [hcx] at hc
  constructor
  · have : c.batch_index ∈ (parallelBuildLoop update_script_from_row 0
        (initStore { s0 with batch_mode := some false, batch_items_count := some 1 }) 1
        rows).ctxs.map Ctx.batch_index :=
      List.mem_map_of_mem Ctx.batch_index hc
    rw [h4] at this
    exact List.eq_of_mem_replicate this
  · have hmem : read (parallelBuildLoop update_script_from_row 0
        (initStore { s0 with batch_mode := some false, batch_items_count := some 1 }) 1
        rows).store c.addr ∈ (parallelBuildLoop update_script_from_row 0
        (initStore { s0 with batch_mode := some false, batch_items_count := some 1 }) 1
        rows).ctxs.map (fun c => read (parallelBuildLoop update_script_from_row 0
        (initStore { s0 with batch_mode := some false, batch_items_count := some 1 }) 1
        rows).store c.addr) :=
      List.mem_map_of_mem _ hc
    rw [h6] at hmem
    obtain ⟨q, _, heq⟩ := List.mem_map.mp hmem
    rw [hs, ← heq, update_script_from_row_batch_mode, update_script_from_row_batch_items_count]
    exact ⟨rfl, rfl⟩

/-- Claim C6: parallel dispatch of `M` batch items writes exactly `M`
serialized run-context files `auto1..autoM` (in that order) into the
temporary directory, creates exactly one rendezvous fifo named
`\x7btime_id\x7d_finished` before spawning the overview process, then
observes the completion signals (one log per fifo line) and only
afterwards cleans up and returns. -/
theorem c6_parallel_dispatch (upd : Row → Script → Nat → Script) (s0 : Script)
    (rows : List Row) (tempdir : String) (time_id : Nat) (code : Int)
    (fifoIn : List String) :
    (run_parallel_screens upd s0 rows tempdir time_id (Except.ok code) fifoIn).events
      = ((List.range' 1 rows.length).map fun j => PEvent.writeFile ("auto" ++ toString j))
        ++ PEvent.mkfifoEv (toString time_id ++ "_finished")
        :: PEvent.spawn (overviewCmd tempdir time_id)
        :: ((fifoIn.map fun _ => PEvent.finishedLog) ++ [PEvent.cleanup]) ∧
    (run_parallel_screens upd s0 rows tempdir time_id (Except.ok code) fifoIn).events.countP
        PEvent.isWrite = rows.length ∧
    (run_parallel_screens upd s0 rows tempdir time_id (Except.ok code) fifoIn).events.countP
        PEvent.isMkfifo = 1 ∧
    (run_parallel_screens upd s0 rows tempdir time_id (Except.ok code) fifoIn).events.countP
        PEvent.isFinishedLog = fifoIn.length ∧
    (run_parallel_screens upd s0 rows tempdir time_id (Except.ok code) fifoIn).result
      = Except.ok () := by
  obtain ⟨_, _, _, _, h5, _⟩ := parallelBuildLoop_spec upd 0 s0 rows (initStore s0) 1
    (by simp [initStore]) (read_initStore s0 0)
  have hev : (run_parallel_screens upd s0 rows tempdir time_id (Except.ok code) fifoIn).events
      = ((List.range' 1 rows.length).map fun j => PEvent.writeFile ("auto" ++ toString j))
        ++ PEvent.mkfifoEv (toString time_id ++ "_finished")
        :: PEvent.spawn (overviewCmd tempdir time_id)
        :: ((fifoIn.map fun _ => PEvent.finishedLog) ++ [PEvent.cleanup]) := by
    simp [run_parallel_screens, h5]
  refine ⟨hev, ?_, ?_, ?_, rfl⟩ <;>
    simp [hev, List.countP_append, List.countP_cons, List.countP_map, List.countP_replicate,
      Function.comp_def, PEvent.isWrite, PEvent.isMkfifo, PEvent.isFinishedLog]

/-- Claim C9: if launching the overview process raises, the failure
propagates out of `run_parallel_screens` as an error: exactly one launch
is attempted (no retry), no completion signal is ever observed, and no
recovery happens beyond the temporary directory's cleanup on unwind. -/
theorem c9_dispatch_error (upd : Row → Script → Nat → Script) (s0 : Script)
    (rows : List Row) (tempdir : String) (time_id : Nat) (e : String)
    (fifoIn : List String) :
    (run_parallel_screens upd s0 rows tempdir time_id (Except.error e) fifoIn).result
      = Except.error e ∧
    (run_parallel_screens upd s0 rows tempdir time_id (Except.error e) fifoIn).events.countP
        PEvent.isSpawn = 1 ∧
    (run_parallel_screens upd s0 rows tempdir time_id (Except.error e) fifoIn).events.countP
        PEvent.isFinishedLog = 0 ∧
    (run_parallel_screens upd s0 rows tempdir time_id (Except.error e) fifoIn).events
      = ((List.range' 1 rows.length).map fun j => PEvent.writeFile ("auto" ++ toString j))
        ++ PEvent.mkfifoEv (toString time_id ++ "_finished")
        :: PEvent.spawn (overviewCmd tempdir time_id)
        :: [PEvent.cleanup] := by
  obtain ⟨_, _, _, _, h5, _⟩ := parallelBuildLoop_spec upd 0 s0 rows (initStore s0) 1
    (by simp [initStore]) (read_initStore s0 0)
  have hev : (run_parallel_screens upd s0 rows tempdir time_id (Except.error e) fifoIn).events
      = ((List.range' 1 rows.length).map fun j => PEvent.writeFile ("auto" ++ toString j))
        ++ PEvent.mkfifoEv (toString time_id ++ "_finished")
        :: PEvent.spawn (overviewCmd tempdir time_id)
        :: [PEvent.cleanup] := by
    simp [run_parallel_screens, h5]
  refine ⟨rfl, ?_, ?_, hev⟩ <;>
    simp [hev, List.countP_append, List.countP_cons, List.countP_map, Function.comp_def,
      PEvent.isSpawn, PEvent.isFinishedLog]

/-- Claim C10: if the nested-shell environment variable is set, `main`
prompts for confirmation before doing anything else, and for every typed
answer other than exactly `"yes"` the process exits with status 0 without
parsing arguments, loading a script or executing any step. -/
theorem c10_shell_guard (answer : String) (pipe : Option String)
    (vars_file parallel : Bool) (h : answer ≠ "yes") :
    main true answer pipe vars_file parallel
        = [MainEvent.promptShell, MainEvent.exitProc 0] ∧
    (main true answer pipe vars_file parallel).head? = some MainEvent.promptShell ∧
    MainEvent.loadScript ∉ main true answer pipe vars_file parallel ∧
    MainEvent.runBatch ∉ main true answer pipe vars_file parallel ∧
    MainEvent.runParallel ∉ main true answer pipe vars_file parallel ∧
    ∀ p, MainEvent.runFromPipe p ∉ main true answer pipe vars_file parallel := by
  have hm : main true answer pipe vars_file parallel
      = [MainEvent.promptShell, MainEvent.exitProc 0] := by
    simp [main, h]
  refine ⟨hm, by rw [hm]; rfl, ?_, ?_, ?_, ?_⟩ <;> simp [hm]

/-! ### Step-selection parsing lemmas -/

theorem allSome_eq_some {α : Type} :
    ∀ (l : List (Option α)) (r : List α), allSome l = some r →
      List.Forall₂ (fun o a => o = some a) l r := by
  intro l
  induction l with
  | nil =>
    intro r h
    simp only [allSome, Option.some.injEq] at h
    subst h
    exact List.Forall₂.nil
  | cons o rest ih =>
    intro r h
    cases o with
    | none => exact absurd h (by simp [allSome])
    | some a =>
      simp only [allSome, Option.map_eq_some'] at h
      obtain ⟨r', hr', heq⟩ := h
      subst heq
      exact List.Forall₂.cons rfl (ih r' hr')

theorem allSome_map_pointwise {α β : Type} (f : α → Option β) (g : α → β) :
    ∀ l : List α, (∀ p ∈ l, f p = some (g p)) → allSome (l.map f) = some (l.map g) := by
  intro l
  induction l with
  | nil => intro _; rfl
  | cons p rest ih =>
    intro h
    have hp := h p (List.mem_cons_self _ _)
    have ihh := ih (fun q hq => h q (List.mem_cons_of_mem _ hq))
    simp only [List.map_cons, hp, allSome, ihh, Option.map_some']

theorem pyInt_digits (ds : List Char) (h1 : ds ≠ []) (h2 : ds.all Char.isDigit = true) :
    pyInt ds = some (natOfDigits ds : Int) := by
  cases ds with
  | nil => exact absurd rfl h1
  | cons c rest =>
    have hc : Char.isDigit c = true := by
      simp only [List.all_cons, Bool.and_eq_true] at h2
      exact h2.1
    have hm : c ≠ '-' := by intro h; subst h; exact absurd hc (by decide)
    have hp : c ≠ '+' := by intro h; subst h; exact absurd hc (by decide)
    simp only [pyInt, if_neg hm, if_neg hp, if_pos h2]

theorem splitOnComma_ne_nil (s : List Char) : splitOnComma s ≠ [] := by
  induction s with
  | nil => simp [splitOnComma]
  | cons c rest ih =>
    simp only [splitOnComma]
    by_cases hc : c = ','
    · simp [hc]
    · simp only [if_neg hc]
      cases h : splitOnComma rest with
      | nil => simp
      | cons part parts => simp

theorem splitOnComma_append (s : List Char) :
    ∀ p : List Char, (∀ c, c ∈ p → c ≠ ',') →
      splitOnComma (p ++ s) = (p ++ (splitOnComma s).headI) :: (splitOnComma s).tail := by
  intro p
  induction p with
  | nil =>
    intro _
    cases h : splitOnComma s with
    | nil => exact absurd h (splitOnComma_ne_nil s)
    | cons a t => simp [h]
  | cons c p' ih =>
    intro hp
    have hc : c ≠ ',' := hp c (List.mem_cons_self _ _)
    have ihh := ih (fun x hx => hp x (List.mem_cons_of_mem _ hx))
    simp only [List.cons_append, splitOnComma, if_neg hc, List.append_eq, ihh]

theorem splitOnComma_joinComma :
    ∀ parts : List (List Char), parts ≠ [] →
      (∀ p, p ∈ parts → ∀ c, c ∈ p → c ≠ ',') →
      splitOnComma (joinComma parts) = parts := by
  intro parts
  induction parts with
  | nil => intro h; exact absurd rfl h
  | cons p rest ih =>
    intro _ hcomma
    cases rest with
    | nil =>
      have h := splitOnComma_append [] p (fun c hc => hcomma p (List.mem_cons_self _ _) c hc)
      simpa [joinComma, splitOnComma] using h
    | cons q rest' =>
      have hJ : joinComma (p :: q :: rest') = p ++ ',' :: joinComma (q :: rest') := rfl
      rw [hJ, splitOnComma_append (',' :: joinComma (q :: rest')) p
        (fun c hc => hcomma p (List.mem_cons_self _ _) c hc)]
      have hsplit : splitOnComma (',' :: joinComma (q :: rest'))
          = [] :: splitOnComma (joinComma (q :: rest')) := by
        simp [splitOnComma]
      rw [hsplit]
      have ihh := ih (by simp) (fun x hx c hc => hcomma x (List.mem_cons_of_mem _ hx) c hc)
      simp [ihh]

theorem startsWithE_joinComma (parts : List (List Char)) (hne : parts ≠ [])
    (hparts : ∀ p, p ∈ parts → p ≠ [] ∧ p.all Char.isDigit = true) :
    startsWithE (joinComma parts) = false := by
  cases parts with
  | nil => exact absurd rfl hne
  | cons p rest =>
    obtain ⟨hp1, hp2⟩ := hparts p (List.mem_cons_self _ _)
    cases p with
    | nil => exact absurd rfl hp1
    | cons c p' =>
      have hc : Char.isDigit c = true := by
        simp only [List.all_cons, Bool.and_eq_true] at hp2
        exact hp2.1
      have hce : ¬(c = 'e') := by intro h; subst h; exact absurd hc (by decide)
      cases rest with
      | nil => simp only [joinComma, startsWithE, decide_eq_false_iff_not]; exact hce
      | cons q rest' =>
        show startsWithE ((c :: p') ++ ',' :: joinComma (q :: rest')) = false
        simp only [List.cons_append, startsWithE, decide_eq_false_iff_not]
        exact hce

/-- Claim C8: the step selection is in exclusion mode if and only if the
argument starts with the marker `e`, and the selected step set is the set
of integers parsed from the comma-separated remainder (the whole string
when no marker is present).  First conjunct: whenever
`get_script_and_batch_items` succeeds, the stored `exclude` flag is the
marker test and the stored steps correspond one-to-one to the integer
parses of the split remainder.  Second conjunct (round trip): for every
well-formed selection argument — an optional marker followed by
comma-joined non-empty digit strings — the parse succeeds and yields
exactly that mode and those numbers. -/
theorem c8_step_selection :
    (∀ (script : Script) (vf : Option (List Row)) (par : Bool) (s : List Char)
      (script' : Script) (items : List Row) (l : List Int),
      get_script_and_batch_items script vf par (some s) = Except.ok (script', items) →
      script'.exclude = some (startsWithE s) ∧
      (script'.steps = some l →
        List.Forall₂ (fun part m => pyInt part = some m)
          (splitOnComma (if startsWithE s then s.drop 1 else s)) l)) ∧
    (∀ (script : Script) (par : Bool) (mode : Bool) (parts : List (List Char)),
      parts ≠ [] → (∀ p, p ∈ parts → p ≠ [] ∧ p.all Char.isDigit = true) →
      get_script_and_batch_items script none par
          (some ((if mode then ['e'] else []) ++ joinComma parts))
        = Except.ok ({ script with
            exclude := some mode,
            steps := some (parts.map (fun p => (natOfDigits p : Int))) }, [[]])) := by
  constructor
  · intro script vf par s script' items l hok
    cases vf
    all_goals
      simp only [get_script_and_batch_items] at hok
      cases hp : parseIntList (if startsWithE s then s.drop 1 else s) with
      | none =>
        simp only [hp] at hok
        exact Except.noConfusion hok
      | some ints =>
        simp only [hp, Except.ok.injEq, Prod.mk.injEq] at hok
        obtain ⟨h1, h2⟩ := hok
        subst h1
        refine ⟨rfl, ?_⟩
        intro hsteps
        have hl : ints = l := by simpa using hsteps
        subst hl
        rw [parseIntList] at hp
        exact List.forall₂_map_left_iff.mp (allSome_eq_some _ _ hp)
  · intro script par mode parts hne hparts
    have hnc : ∀ p, p ∈ parts → ∀ c, c ∈ p → c ≠ ',' := by
      intro p hp c hcp hcc
      have hd : Char.isDigit c = true := by
        have h2 := (hparts p hp).2
        rw [List.all_eq_true] at h2
        exact h2 c hcp
      subst hcc
      exact absurd hd (by decide)
    have hparse : parseIntList (joinComma parts)
        = some (parts.map (fun p => (natOfDigits p : Int))) := by
      rw [parseIntList, splitOnComma_joinComma parts hne hnc]
      exact allSome_map_pointwise pyInt _ parts
        (fun p hp => pyInt_digits p (hparts p hp).1 (hparts p hp).2)
    cases mode with
    | false =>
      have hs : ((if false then ['e'] else []) ++ joinComma parts) = joinComma parts := by
        simp
      rw [hs]
      have hst := startsWithE_joinComma parts hne hparts
      simp only [get_script_and_batch_items, hst, if_neg, Bool.false_eq_true, ite_false, hparse]
    | true =>
      have hs : ((if true then ['e'] else []) ++ joinComma parts)
          = 'e' :: joinComma parts := by simp
      rw [hs]
      have hst : startsWithE ('e' :: joinComma parts) = true := by
        simp [startsWithE]
      simp only [get_script_and_batch_items, hst, ite_true, List.drop_succ_cons,
        List.drop_zero, hparse]

/-! ### Concrete witnesses -/

/-- A sample script template for concrete runs. -/
def sampleScript : Script := {}

def rowA : Row := [("host", "a")]

def rowB : Row := [("host", "b")]

/-- Step lists for a concrete batch: item 1 skips after one successful
step, item 2 runs one step normally. -/
def itemsW : Nat → List StepSignal := fun i =>
  if i = 1 then [StepSignal.continueS, StepSignal.skipS "skip me", StepSignal.continueS]
  else [StepSignal.continueS]

theorem c2_skip_item_witness :
    itemsW 1 = [StepSignal.continueS] ++ StepSignal.skipS "skip me" :: [StepSignal.continueS] ∧
    (runSteps (itemsW 1)).1 = 2 ∧
    LogEntry.info "skip me" ∈ (run_batch_items update_script_from_row
      (fun i => (runSteps (itemsW i)).2) sampleScript [rowA, rowB]).logs ∧
    (run_batch_items update_script_from_row
      (fun i => (runSteps (itemsW i)).2) sampleScript [rowA, rowB]).exitcode = none ∧
    (run_batch_items update_script_from_row
      (fun i => (runSteps (itemsW i)).2) sampleScript [rowA, rowB]).attempted = [1, 2] := by
  have h := c2_skip_item update_script_from_row itemsW sampleScript [rowA, rowB] 1 "skip me"
    [StepSignal.continueS] [StepSignal.continueS] (by decide) (by decide) (by decide)
    (by decide) (by
      intro i h1 h2
      have h2' : i ≤ 2 := by simpa using h2
      interval_cases i <;> decide)
  exact ⟨by decide, h.1, h.2.1, h.2.2.1, by rw [h.2.2.2]; decide⟩

theorem c3_abort_terminates_witness :
    ((fun i => if i = 2 then RunResult.abortR 3 else RunResult.normal) 2
        = RunResult.abortR 3) ∧
    (run_batch_items update_script_from_row
      (fun i => if i = 2 then RunResult.abortR 3 else RunResult.normal)
      sampleScript [rowA, rowB]).exitcode = some 3 ∧
    (run_batch_items update_script_from_row
      (fun i => if i = 2 then RunResult.abortR 3 else RunResult.normal)
      sampleScript [rowA, rowB]).attempted = [1, 2] := by
  have h := c3_abort_terminates update_script_from_row
    (fun i => if i = 2 then RunResult.abortR 3 else RunResult.normal)
    sampleScript [rowA, rowB] 2 3 (by decide) (by decide) (by decide)
    (by intro m h1 h2; interval_cases m <;> decide)
  exact ⟨by decide, h.1, by rw [h.2.1]; decide⟩

theorem c4_sequential_builds_all_witness :
    (1 ≤ ([rowA, rowB] : List Row).length) ∧
    (run_batch_items update_script_from_row (fun _ => RunResult.normal)
      sampleScript [rowA, rowB]).ctxs.length = 2 ∧
    (run_batch_items update_script_from_row (fun _ => RunResult.normal)
      sampleScript [rowA, rowB]).ctxs.map Ctx.batch_index = [1, 2] ∧
    (run_batch_items update_script_from_row (fun _ => RunResult.normal)
      sampleScript [rowA, rowB]).attempted = [1, 2] := by
  have h := c4_sequential_builds_all update_script_from_row (fun _ => RunResult.normal)
    sampleScript [rowA, rowB] (by decide) (fun i h1 h2 => rfl)
  exact ⟨by decide, by rw [h.1]; decide, by rw [h.2.1]; decide, by rw [h.2.2.1]; decide⟩

theorem c7_user_interrupt_witness :
    ((fun i => if i = 1 then RunResult.interrupt else RunResult.normal) 1
        = RunResult.interrupt) ∧
    (run_batch_items update_script_from_row
      (fun i => if i = 1 then RunResult.interrupt else RunResult.normal)
      sampleScript [rowA, rowB]).exitcode = some 130 ∧
    (run_batch_items update_script_from_row
      (fun i => if i = 1 then RunResult.interrupt else RunResult.normal)
      sampleScript [rowA, rowB]).logs.countP LogEntry.isWarning = 1 ∧
    (run_batch_items update_script_from_row
      (fun i => if i = 1 then RunResult.interrupt else RunResult.normal)
      sampleScript [rowA, rowB]).attempted = [1] := by
  have h := c7_user_interrupt update_script_from_row
    (fun i => if i = 1 then RunResult.interrupt else RunResult.normal)
    sampleScript [rowA, rowB] 1 (by decide) (by decide) (by decide)
    (by intro m h1 h2; omega)
  exact ⟨by decide, h.1, h.2.1, by rw [h.2.2.1]; decide⟩

theorem c10_shell_guard_witness :
    ("no" ≠ "yes") ∧
    main true "no" none false false = [MainEvent.promptShell, MainEvent.exitProc 0] ∧
    (main true "no" none false false).head? = some MainEvent.promptShell ∧
    MainEvent.loadScript ∉ main true "no" none false false := by
  have h := c10_shell_guard "no" none false false (by decide)
  exact ⟨by decide, h.1, h.2.1, h.2.2.1⟩

end Automatix
